import Mathlib

/-!
Verification development for the two-tier review cache of `pkg/cache`
(`ReviewCache` in the repository): a shallow embedding of `NewReviewCache`,
`Get`, `Set`, `removeOldest`, `Clear`, `BatchGet` and the data model
(`CacheItem`, the in-memory LRU built from `map[string]*list.Element` plus
`container/list`, and the on-disk JSON files), together with theorems that
settle the specification claims.

Modelling conventions:
* Timestamps and durations are `Nat` nanoseconds (Go `time.Time` / `time.Duration`);
  `time.Now().After(t)` is `t < now`, `time.Since(t) > d` is `d < now - t`
  (Go yields a negative duration when `t` is in the future, which is never
  `> d` for the positive `d` used; `Nat` truncated subtraction agrees).
* The filesystem below the cache directory is a finite association list from
  relative paths (lists of components) to files.  A file stores the parse of
  its bytes: `some item` when `json.Unmarshal` succeeds, `none` for an
  unparsable file, plus its byte size.  Reads and writes of existing paths
  never fail (I/O fault injection is out of scope); a missing path is the
  `os.IsNotExist` case.
* The SHA-256 fingerprint is an abstract parameter `hash : String → String`
  (the real function returns 64 lowercase-hex ASCII characters; theorems that
  depend on that shape carry it as a hypothesis).  The byte length of
  `json.Marshal` output is likewise an abstract parameter
  `msize : CacheItemM → Nat`.
* The LRU list of `container/list` is a `List (Nat × CacheItemM)` of unique
  element identifiers paired with values; the `map[string]*list.Element` is an
  association list from hash keys to element identifiers.  Identifiers are
  allocated from the monotone counter `nextId`, which models pointer identity.
* Go `len(content)` is the UTF-8 byte count, i.e. `String.utf8ByteSize`.
-/

namespace ReviewCache

/-- Embedding of `CacheItem`: content hash, review result, `CachedAt`,
optional `ExpireAt` and `LastAccessed` (times in nanoseconds). -/
structure CacheItemM where
  contentHash : String
  reviewResult : String
  cachedAt : Nat
  expireAt : Option Nat
  lastAccessed : Nat
  deriving DecidableEq

/-- Parse of one on-disk cache file: `content = some item` when the JSON
unmarshals to `item`, `none` when the file is unparsable; `size` is the file
size in bytes reported by `file.Info()`. -/
structure DiskFile where
  content : Option CacheItemM
  size : Nat
  deriving DecidableEq

/-- Embedding of the mutable state of a `ReviewCache` value plus the
filesystem under its cache directory.  `memCache` maps hash keys to LRU
element identifiers, `lru` is the `container/list` front-to-back, `nextId`
allocates element identifiers, `currentSize` is the (signed) size gauge. -/
structure CacheState where
  memCache : List (String × Nat)
  lru : List (Nat × CacheItemM)
  nextId : Nat
  maxItems : Nat
  maxFileSize : Nat
  cleanupInterval : Nat
  maxCacheSize : Nat
  currentSize : Int
  subDirCount : Nat
  disk : List (List String × DiskFile)
  deriving DecidableEq

/-- The errors the modelled operations can return (`fmt.Errorf` messages in
the source): content-over-`maxFileSize` on `Set`, capacity exhausted after
cleanup on `Set`, and a `json.Unmarshal` failure surfaced by `Get`. -/
inductive CacheErr where
  | sizeLimit
  | capacityFull
  | unmarshal
  deriving DecidableEq

/-- First-match lookup in an association list (Go map read). -/
def lookupA {α β : Type} [DecidableEq α] (k : α) : List (α × β) → Option β
  | [] => none
  | (k', v) :: t => if k' = k then some v else lookupA k t

/-- Remove a key from an association list (Go `delete(m, k)`). -/
def eraseA {α β : Type} [DecidableEq α] (k : α) (l : List (α × β)) : List (α × β) :=
  l.filter (fun e => !decide (e.1 = k))

/-- Map write `m[k] = v`: replaces any binding of `k`. -/
def insertA {α β : Type} [DecidableEq α] (k : α) (v : β) (l : List (α × β)) : List (α × β) :=
  (k, v) :: eraseA k l

/-- One hour in nanoseconds (`time.Hour`). -/
def hourNs : Nat := 3600000000000

/-- Hex digit character `0`-`9`, `a`-`f` used by `fmt.Sprintf("%x"/"%02x")`. -/
def hexDigitChar (n : Nat) : Char :=
  if n < 10 then Char.ofNat (48 + n) else Char.ofNat (87 + n)

/-- `fmt.Sprintf("%02x", n)` for a byte value `n < 256`: two lowercase hex
digits.  Both call sites of the source (`i < 16` in `Clear`,
`item.ContentHash[0]` in `Set`) pass values below 256. -/
def hexName (n : Nat) : String :=
  String.mk [hexDigitChar (n / 16 % 16), hexDigitChar (n % 16)]

/-- Go `s[0]` on the hash string: its first byte.  The real hash is lowercase
hex, hence ASCII, so the first byte is the code point of the first character
(an arbitrary default is used for the empty string, on which the Go code
would panic; the real hash has 64 characters). -/
def firstByte (s : String) : Nat :=
  (s.data.headD 'a').toNat

/-- `subDir := fmt.Sprintf("%02x", item.ContentHash[0])` in `Set`. -/
def shardDir (h : String) : String :=
  hexName (firstByte h)

/-- File name `contentHash + ".json"`. -/
def entryFileName (h : String) : String :=
  h ++ ".json"

/-- `item.ExpireAt != nil && time.Now().After(*item.ExpireAt)`. -/
def isExpired (now : Nat) (item : CacheItemM) : Bool :=
  match item.expireAt with
  | none => false
  | some e => decide (e < now)

/-- Read the LRU element pointed at by `memCache[h]`:
Go `elem, ok := c.memCache[contentHash]` followed by
`elem.Value.(*CacheItem)`. -/
def memLookup (s : CacheState) (h : String) : Option (Nat × CacheItemM) :=
  (lookupA h s.memCache).bind (fun id => s.lru.find? (fun e => decide (e.1 = id)))

/-- Go `c.lru.MoveToFront(elem)` after mutating the element's value in place
(the `item.LastAccessed = time.Now()` write): the element keeps its identity
and moves to the front with the updated value. -/
def moveToFront (s : CacheState) (id : Nat) (item : CacheItemM) : CacheState :=
  { s with lru := (id, item) :: s.lru.filter (fun e => !decide (e.1 = id)) }

/-- Go `elem := c.lru.PushFront(&item); c.memCache[key] = elem` with a fresh
element identity. -/
def pushFront (s : CacheState) (key : String) (item : CacheItemM) : CacheState :=
  { s with lru := (s.nextId, item) :: s.lru,
           memCache := insertA key s.nextId s.memCache,
           nextId := s.nextId + 1 }

/-- Embedding of `removeOldest`: take `lru.Back()`, remove it from the list
and delete `memCache[item.ContentHash]`; no-op on an empty list. -/
def removeOldest (s : CacheState) : CacheState :=
  match s.lru.getLast? with
  | none => s
  | some e =>
    { s with lru := s.lru.dropLast,
             memCache := eraseA e.2.contentHash s.memCache }

/-- `os.ReadFile` under the cache directory: `none` is the
`os.IsNotExist` miss. -/
def diskLookup (d : List (List String × DiskFile)) (p : List String) : Option DiskFile :=
  lookupA p d

/-- `os.WriteFile` (overwrite semantics). -/
def diskWrite (d : List (List String × DiskFile)) (p : List String) (f : DiskFile) :
    List (List String × DiskFile) :=
  (p, f) :: d.filter (fun e => !decide (e.1 = p))

/-- `os.Remove`. -/
def diskErase (d : List (List String × DiskFile)) (p : List String) :
    List (List String × DiskFile) :=
  d.filter (fun e => !decide (e.1 = p))

/-- Embedding of `Get`: memory-tier lookup (hit updates `LastAccessed` and
moves the element to the front), then a read of `cacheDir/contentHash.json`
(the cache-directory root), expiry check with opportunistic removal, and
promotion into the memory tier with capacity eviction. -/
def get (hash : String → String) (now : Nat) (s : CacheState) (content : String) :
    Except CacheErr (Option CacheItemM) × CacheState :=
  let h := hash content
  match memLookup s h with
  | some e =>
    let item := { e.2 with lastAccessed := now }
    (Except.ok (some item), moveToFront s e.1 item)
  | none =>
    let path := [entryFileName h]
    match diskLookup s.disk path with
    | none => (Except.ok none, s)
    | some f =>
      match f.content with
      | none => (Except.error CacheErr.unmarshal, s)
      | some item =>
        if isExpired now item then
          (Except.ok none, { s with disk := diskErase s.disk path })
        else
          let s1 := if s.maxItems ≤ s.lru.length then removeOldest s else s
          let item1 := { item with lastAccessed := now }
          (Except.ok (some item1), pushFront s1 h item1)

/-- The `CacheItem` literal built by `Set` at time `now`. -/
def mkItem (hash : String → String) (now : Nat) (content result : String)
    (expireAfter : Option Nat) : CacheItemM :=
  { contentHash := hash content, reviewResult := result, cachedAt := now,
    expireAt := expireAfter.map (fun d => now + d), lastAccessed := now }

/-- The memory-tier insertion at the end of `Set`: evict the oldest element
when the list is at capacity, then push the new item keyed by its own
content hash. -/
def memInsert (s : CacheState) (item : CacheItemM) : CacheState :=
  let s1 := if s.maxItems ≤ s.lru.length then removeOldest s else s
  pushFront s1 item.contentHash item

/-- The write phase of `Set` (after the size and capacity checks): marshal,
write `cacheDir/subDir/contentHash.json`, then insert into the memory tier. -/
def setWrite (msize : CacheItemM → Nat) (s : CacheState) (item : CacheItemM) :
    Except CacheErr Unit × CacheState :=
  let path := [shardDir item.contentHash, entryFileName item.contentHash]
  let s1 := { s with disk := diskWrite s.disk path ⟨some item, msize item⟩ }
  (Except.ok (), memInsert s1 item)

/-- The removal predicate of one `Clear` sweep: the entry lies in one of the
scanned subdirectories `fmt.Sprintf("%02x", i)` for `i < subDirCount`, has
the `.json` extension, parses, and is expired or idle for more than 24
hours.  Unparsable files and files whose read fails are skipped (`continue`). -/
def clearRemoves (now subDirCount : Nat) (e : List String × DiskFile) : Bool :=
  match e.1 with
  | [dir, name] =>
    (List.range subDirCount).any (fun i => decide (hexName i = dir)) &&
    List.isSuffixOf ".json".data name.data &&
    (match e.2.content with
     | none => false
     | some item => isExpired now item || decide (hourNs * 24 < now - item.lastAccessed))
  | _ => false

/-- Embedding of `Clear`: wipe the memory tier, reset `currentSize` to zero,
then sweep subdirectories `00`‥: each removed file also subtracts its size
from `currentSize`.  The Go function always returns `nil` (per-file errors
are printed and skipped), so the model is total. -/
def clear (now : Nat) (s : CacheState) : CacheState :=
  let removed := s.disk.filter (clearRemoves now s.subDirCount)
  { s with memCache := [], lru := [],
           currentSize := 0 - ((removed.map (fun e => (e.2.size : Int))).sum),
           disk := s.disk.filter (fun e => !clearRemoves now s.subDirCount e) }

/-- Embedding of `Set`: reject content over `maxFileSize`; if
`currentSize + contentSize` exceeds `maxCacheSize`, run `Clear` and re-check,
rejecting with the capacity error when still over; otherwise marshal, write
the shard file and insert into the memory tier. -/
def set (hash : String → String) (msize : CacheItemM → Nat) (now : Nat)
    (s : CacheState) (content result : String) (expireAfter : Option Nat) :
    Except CacheErr Unit × CacheState :=
  let contentSize := content.utf8ByteSize
  if s.maxFileSize < contentSize then
    (Except.error CacheErr.sizeLimit, s)
  else if (s.maxCacheSize : Int) < s.currentSize + contentSize then
    let s1 := clear now s
    if (s1.maxCacheSize : Int) < s1.currentSize + contentSize then
      (Except.error CacheErr.capacityFull, s1)
    else
      setWrite msize s1 (mkItem hash now content result expireAfter)
  else
    setWrite msize s (mkItem hash now content result expireAfter)

/-- Embedding of `BatchGet`: fan out `Get` per content and collect into the
result map exactly those items with `err == nil && item != nil`.  The
bounded-concurrency fan-out is modelled by sequential execution (each worker
runs one `Get`; map insertion order is immaterial to the claims). -/
def batchGet (hash : String → String) (now : Nat) (s : CacheState) :
    List String → List (String × CacheItemM) × CacheState
  | [] => ([], s)
  | c :: rest =>
    let r := get hash now s c
    let acc := batchGet hash now r.2 rest
    match r.1 with
    | Except.ok (some item) => (insertA c item acc.1, acc.2)
    | _ => acc

/-- The state built by `NewReviewCache` over an existing directory tree
`d` (empty for a fresh directory): the constructor's literal configuration
(`maxItems 100`, `maxFileSize` 5 MiB, hourly cleanup, `maxCacheSize` 100 MiB,
16 subdirectories) with an empty memory tier and zero size gauge. -/
def newReviewCache (d : List (List String × DiskFile)) : CacheState :=
  { memCache := [], lru := [], nextId := 0, maxItems := 100,
    maxFileSize := 5 * 1024 * 1024, cleanupInterval := hourNs,
    maxCacheSize := 100 * 1024 * 1024, currentSize := 0, subDirCount := 16,
    disk := d }

/-- A fresh cache over an empty directory. -/
def initState : CacheState :=
  newReviewCache []

/-- A process restart over the same cache directory: `NewReviewCache` on the
surviving filesystem. -/
def restartState (s : CacheState) : CacheState :=
  newReviewCache s.disk

/-! ### Supporting definitions and lemmas -/

/-- A concrete stand-in for the abstract fingerprint used by closed
demonstrations: nonempty output beginning with the lowercase hex digit `c`,
mirroring the shape of an actual SHA-256 hex digest. -/
def hashW : String → String := fun s => "c" ++ s

/-- A concrete stand-in for the marshalled-size function. -/
def msizeW : CacheItemM → Nat := fun _ => 1

/-- All paths on disk have exactly two components (a shard directory and a
file name).  `Set` only ever writes such paths, so the property holds in
every state the cache reaches through its own operations; `Get`'s root-level
read can then never hit. -/
def disk2 (s : CacheState) : Prop :=
  ∀ e ∈ s.disk, e.1.length = 2

instance disk2Decidable (s : CacheState) : Decidable (disk2 s) :=
  inferInstanceAs (Decidable (∀ e ∈ s.disk, e.1.length = 2))

/-- The configuration invariant of states reachable from `NewReviewCache`:
the constructor's limits, and a size gauge that never exceeds zero because
no operation ever adds to `currentSize`. -/
def goodState (s : CacheState) : Prop :=
  s.maxFileSize = 5 * 1024 * 1024 ∧ s.maxCacheSize = 100 * 1024 * 1024 ∧
    s.currentSize ≤ 0

/-- The memory tier answers for `content` in state `s`. -/
def memHit (hash : String → String) (s : CacheState) (c : String) : Bool :=
  (memLookup s (hash c)).isSome

theorem lookupA_mem {α β : Type} [DecidableEq α] {k : α} {v : β}
    {l : List (α × β)} (h : lookupA k l = some v) : (k, v) ∈ l := by
  induction l with
  | nil => simp [lookupA] at h
  | cons e t ih =>
    obtain ⟨a, b⟩ := e
    simp only [lookupA] at h
    by_cases he : a = k
    · rw [if_pos he] at h
      cases h
      subst he
      exact List.mem_cons_self _ _
    · rw [if_neg he] at h
      exact List.mem_cons_of_mem _ (ih h)

theorem lookupA_filter_self {α β : Type} [DecidableEq α] (k : α)
    (l : List (α × β)) : lookupA k (l.filter (fun e => !decide (e.1 = k))) = none := by
  induction l with
  | nil => rfl
  | cons e t ih =>
    by_cases he : e.1 = k
    · simpa [List.filter, he] using ih
    · simpa [List.filter, he, lookupA] using ih

theorem diskLookup_root_none {s : CacheState} (hd : disk2 s) (n : String) :
    diskLookup s.disk [n] = none := by
  cases h : diskLookup s.disk [n] with
  | none => rfl
  | some f =>
    have hm := lookupA_mem h
    have := hd _ hm
    simp at this

theorem set_no_checks (hash : String → String) (msize : CacheItemM → Nat)
    (now : Nat) (s : CacheState) (content result : String) (exp : Option Nat)
    (h1 : ¬ s.maxFileSize < content.utf8ByteSize)
    (h2 : ¬ ((s.maxCacheSize : Int) < s.currentSize + content.utf8ByteSize)) :
    set hash msize now s content result exp =
      setWrite msize s (mkItem hash now content result exp) := by
  simp [set, h1, h2]

theorem get_pushFront (hash : String → String) (now' : Nat) (s : CacheState)
    (item : CacheItemM) (content : String) (hk : item.contentHash = hash content) :
    (get hash now' (pushFront s item.contentHash item) content).1 =
      Except.ok (some { item with lastAccessed := now' }) := by
  simp [get, memLookup, pushFront, insertA, lookupA, hk, List.find?]

theorem get_after_memInsert (hash : String → String) (now' : Nat)
    (s : CacheState) (item : CacheItemM) (content : String)
    (hk : item.contentHash = hash content) :
    (get hash now' (memInsert s item) content).1 =
      Except.ok (some { item with lastAccessed := now' }) := by
  unfold memInsert
  exact get_pushFront hash now' _ item content hk

theorem get_after_setWrite (hash : String → String) (msize : CacheItemM → Nat)
    (now' : Nat) (s : CacheState) (item : CacheItemM) (content : String)
    (hk : item.contentHash = hash content) :
    (get hash now' (setWrite msize s item).2 content).1 =
      Except.ok (some { item with lastAccessed := now' }) := by
  unfold setWrite
  exact get_after_memInsert hash now' _ item content hk

/-- Claim C1: for every content `C` and value `V`, a `Set(C, V, expiry)` that
returns without error followed by `Get(C)` on the same cache returns the
cached entry (the item built by `Set`, with its access time refreshed), found
and with no error. -/
theorem set_then_get_returns_value (hash : String → String)
    (msize : CacheItemM → Nat) (now now' : Nat) (s : CacheState)
    (content result : String) (exp : Option Nat)
    (h : (set hash msize now s content result exp).1 = Except.ok ()) :
    (get hash now' (set hash msize now s content result exp).2 content).1 =
      Except.ok (some { mkItem hash now content result exp with lastAccessed := now' }) ∧
    (mkItem hash now content result exp).reviewResult = result := by
  refine ⟨?_, rfl⟩
  unfold set at h ⊢
  by_cases h1 : s.maxFileSize < content.utf8ByteSize
  · rw [if_pos h1] at h
    exact absurd h (by simp)
  · rw [if_neg h1] at h ⊢
    by_cases h2 : (s.maxCacheSize : Int) < s.currentSize + content.utf8ByteSize
    · rw [if_pos h2] at h ⊢
      by_cases h3 : ((clear now s).maxCacheSize : Int) <
          (clear now s).currentSize + content.utf8ByteSize
      · rw [if_pos h3] at h
        exact absurd h (by simp)
      · rw [if_neg h3]
        exact get_after_setWrite hash msize now' _ _ content rfl
    · rw [if_neg h2]
      exact get_after_setWrite hash msize now' _ _ content rfl

theorem set_then_get_returns_value_witness :
    (get hashW 1 (set hashW msizeW 0 initState "a" "v" none).2 "a").1 =
      Except.ok (some { mkItem hashW 0 "a" "v" none with lastAccessed := 1 }) ∧
    (mkItem hashW 0 "a" "v" none).reviewResult = "v" :=
  set_then_get_returns_value hashW msizeW 0 1 initState "a" "v" none rfl

/-- Claim C10: content strictly longer (in bytes) than the per-item limit is
rejected by `Set` before anything is written, with the state returned
unchanged; the limit configured by `NewReviewCache` is 5 MiB. -/
theorem oversized_content_rejected (hash : String → String)
    (msize : CacheItemM → Nat) (now : Nat) (s : CacheState)
    (content result : String) (exp : Option Nat)
    (h : s.maxFileSize < content.utf8ByteSize) :
    set hash msize now s content result exp = (Except.error CacheErr.sizeLimit, s) ∧
    initState.maxFileSize = 5 * 1024 * 1024 := by
  constructor
  · simp [set, h]
  · rfl

theorem oversized_content_rejected_witness :
    set hashW msizeW 0 { initState with maxFileSize := 2 } "abc" "v" none =
      (Except.error CacheErr.sizeLimit, { initState with maxFileSize := 2 }) ∧
    initState.maxFileSize = 5 * 1024 * 1024 :=
  oversized_content_rejected hashW msizeW 0 _ "abc" "v" none (by decide)

/-! ### Closed demonstration states over a concrete fingerprint -/

/-- The state after one `Set("a", "v")` on a fresh cache. -/
def s1W : CacheState := (set hashW msizeW 0 initState "a" "v" none).2

/-- The state after `Set("a", "v")` with a 5 ns expiry on a fresh cache. -/
def s3W : CacheState := (set hashW msizeW 0 initState "a" "v" (some 5)).2

/-- The state after `Set("a", "v")` with a 1 ns expiry on a fresh cache. -/
def s5W : CacheState := (set hashW msizeW 0 initState "a" "v" (some 1)).2

/-- The item written by `Set("a", "v")` with a 1 ns expiry at time 0. -/
def item5W : CacheItemM := mkItem hashW 0 "a" "v" (some 1)

/-- A hash stand-in used for states prepared with a root-level disk file. -/
def hashH : String → String := fun _ => "h"

/-- A cache state whose directory holds one unparsable root-level file
`h.json` (for example written by a different tool or truncated). -/
def sCorW : CacheState :=
  { initState with disk := [([entryFileName "h"], ⟨none, 3⟩)] }

/-- Claim C2: refuted on the code.  `Set` persists the entry under the shard
subdirectory (`cacheDir/63/ca.json` here) and the write succeeds, but after a
restart (same directory, fresh memory tier) `Get` reads
`cacheDir/ca.json` — the directory root — so the persisted entry is never
found again: `Get` reports not-found even though the entry is on disk with
full metadata. -/
theorem restart_get_misses_persisted_entry :
    (set hashW msizeW 0 initState "a" "v" none).1 = Except.ok () ∧
    diskLookup s1W.disk [shardDir (hashW "a"), entryFileName (hashW "a")] =
      some ⟨some (mkItem hashW 0 "a" "v" none), msizeW (mkItem hashW 0 "a" "v" none)⟩ ∧
    (get hashW 1 (restartState s1W) "a").1 = Except.ok none :=
  ⟨rfl, rfl, rfl⟩

/-- Claim C3 counterexample: an entry whose `expiresAt` (5) is in the past
(`now` = 10) is returned by `Get` as a found, error-free hit because the
memory-tier fast path never checks expiry. -/
theorem get_returns_expired_memory_entry :
    (get hashW 10 s3W "a").1 =
      Except.ok (some { contentHash := hashW "a", reviewResult := "v",
                        cachedAt := 0, expireAt := some 5, lastAccessed := 10 }) ∧
    isExpired 10 { contentHash := hashW "a", reviewResult := "v",
                   cachedAt := 0, expireAt := some 5, lastAccessed := 10 } = true :=
  ⟨rfl, rfl⟩

/-- Claim C3 as amended: an expired entry read from the persistent tier is
never returned — `Get` deletes the file and reports not-found (the memory
tier, by contrast, returns expired entries; see the counterexample). -/
theorem get_disk_expired_behaves_absent (hash : String → String) (now : Nat)
    (s : CacheState) (content : String) (f : DiskFile) (item : CacheItemM)
    (hmem : memLookup s (hash content) = none)
    (hdisk : diskLookup s.disk [entryFileName (hash content)] = some f)
    (hitem : f.content = some item)
    (hexp : isExpired now item = true) :
    (get hash now s content).1 = Except.ok none ∧
    diskLookup (get hash now s content).2.disk [entryFileName (hash content)] = none := by
  have hg : get hash now s content =
      (Except.ok none, { s with disk := diskErase s.disk [entryFileName (hash content)] }) := by
    simp [get, hmem, hdisk, hitem, hexp]
  rw [hg]
  exact ⟨rfl, lookupA_filter_self _ _⟩

/-- An expired parsable entry sitting at the directory root. -/
def itemEW : CacheItemM :=
  { contentHash := "h", reviewResult := "v", cachedAt := 0,
    expireAt := some 1, lastAccessed := 0 }

/-- A cache state whose directory holds the expired root-level entry. -/
def sExpW : CacheState :=
  { initState with disk := [([entryFileName "h"], ⟨some itemEW, 2⟩)] }

theorem get_disk_expired_behaves_absent_witness :
    (get hashH 5 sExpW "x").1 = Except.ok none ∧
    diskLookup (get hashH 5 sExpW "x").2.disk [entryFileName (hashH "x")] = none :=
  get_disk_expired_behaves_absent hashH 5 sExpW "x" ⟨some itemEW, 2⟩ itemEW
    rfl rfl rfl rfl

/-- Claim C5: refuted on the code.  An entry written by `Set` (here expired
long before the sweep) survives a `Clear` sweep untouched: `Set` stores it
under directory `"63"` (the `%02x` image of the byte value 99 of the hash's
first character `c`), while the sweep only scans the sixteen directories
`fmt.Sprintf("%02x", i)` for `i < 16`, i.e. `"00"`‥`"0f"` — `"63"` is not
among them, so no entry written by `Set` is ever examined. -/
theorem sweep_skips_entries_written_by_set :
    isExpired (2 * hourNs) item5W = true ∧
    diskLookup (clear (2 * hourNs) s5W).disk
        [shardDir (hashW "a"), entryFileName (hashW "a")] =
      some ⟨some item5W, msizeW item5W⟩ ∧
    shardDir (hashW "a") = "63" ∧
    (∀ i ∈ List.range 16, hexName i ≠ "63") :=
  ⟨rfl, rfl, rfl, by decide⟩

/-- Claim C6 counterexample: after `Clear()` (which always returns without
error) the entry persisted by `Set` is still present in the persistent tier,
so `Clear` is not a full purge of both tiers. -/
theorem clear_keeps_persisted_entry :
    diskLookup (clear 7 s1W).disk [shardDir (hashW "a"), entryFileName (hashW "a")] =
      some ⟨some (mkItem hashW 0 "a" "v" none), msizeW (mkItem hashW 0 "a" "v" none)⟩ :=
  rfl

/-- Claim C6 as amended: `Clear` fully empties the memory tier (and always
returns without error), but on disk removes only expired or idle entries
found in the scanned shard directories; nevertheless `Get` on any content
afterwards returns not-found in every state whose disk holds only sharded
(two-component) paths, because the memory tier is empty and `Get`'s disk
lookup reads the directory root. -/
theorem clear_empties_memory_get_misses (hash : String → String)
    (now now' : Nat) (s : CacheState) (content : String) (hd : disk2 s) :
    (clear now s).memCache = [] ∧ (clear now s).lru = [] ∧
    (get hash now' (clear now s) content).1 = Except.ok none := by
  refine ⟨rfl, rfl, ?_⟩
  have hd2 : disk2 (clear now s) := by
    intro e he
    exact hd e (List.mem_of_mem_filter he)
  have hroot := diskLookup_root_none hd2 (entryFileName (hash content))
  have hmem : (clear now s).memCache = [] := rfl
  simp [get, memLookup, lookupA, hmem, hroot]

theorem clear_empties_memory_get_misses_witness :
    (clear 3 s1W).memCache = [] ∧ (clear 3 s1W).lru = [] ∧
    (get hashW 4 (clear 3 s1W) "a").1 = Except.ok none :=
  clear_empties_memory_get_misses hashW 3 4 s1W "a" (by decide)

/-- Claim C7 counterexample: a persisted file that cannot be parsed makes
`Get` surface a hard unmarshal error, and the corrupt file is not deleted
(the state, disk included, is returned unchanged). -/
theorem corrupt_entry_read_errors :
    get hashH 0 sCorW "x" = (Except.error CacheErr.unmarshal, sCorW) :=
  rfl

/-- Claim C7 as amended: a missing persisted file is a soft miss (not-found,
no error, state unchanged), but an unparsable file is surfaced as a hard
unmarshal error and is kept on disk (state unchanged), not deleted. -/
theorem missing_soft_corrupt_hard (hash : String → String) (now : Nat)
    (s : CacheState) (content : String)
    (hmem : memLookup s (hash content) = none) :
    (diskLookup s.disk [entryFileName (hash content)] = none →
      get hash now s content = (Except.ok none, s)) ∧
    (∀ f, diskLookup s.disk [entryFileName (hash content)] = some f →
      f.content = none →
      get hash now s content = (Except.error CacheErr.unmarshal, s)) := by
  constructor
  · intro hd
    simp [get, hmem, hd]
  · intro f hd hc
    simp [get, hmem, hd, hc]

theorem missing_soft_corrupt_hard_witness :
    get hashH 0 initState "x" = (Except.ok none, initState) ∧
    get hashH 0 sCorW "x" = (Except.error CacheErr.unmarshal, sCorW) :=
  ⟨(missing_soft_corrupt_hard hashH 0 initState "x" rfl).1 rfl,
   (missing_soft_corrupt_hard hashH 0 sCorW "x" rfl).2 ⟨none, 3⟩ rfl rfl⟩

/-! ### The size gauge is never increased: the capacity check is dead code -/

theorem removeOldest_currentSize (s : CacheState) :
    (removeOldest s).currentSize = s.currentSize := by
  unfold removeOldest
  cases s.lru.getLast? <;> rfl

theorem removeOldest_disk (s : CacheState) : (removeOldest s).disk = s.disk := by
  unfold removeOldest
  cases s.lru.getLast? <;> rfl

theorem memInsert_currentSize (s : CacheState) (item : CacheItemM) :
    (memInsert s item).currentSize = s.currentSize := by
  unfold memInsert pushFront
  by_cases h : s.maxItems ≤ s.lru.length
  · simp [h, removeOldest_currentSize]
  · simp [h]

theorem memInsert_disk (s : CacheState) (item : CacheItemM) :
    (memInsert s item).disk = s.disk := by
  unfold memInsert pushFront
  by_cases h : s.maxItems ≤ s.lru.length
  · simp [h, removeOldest_disk]
  · simp [h]

theorem setWrite_currentSize (msize : CacheItemM → Nat) (s : CacheState)
    (item : CacheItemM) : (setWrite msize s item).2.currentSize = s.currentSize := by
  unfold setWrite
  rw [memInsert_currentSize]

theorem setWrite_disk (msize : CacheItemM → Nat) (s : CacheState)
    (item : CacheItemM) :
    (setWrite msize s item).2.disk =
      diskWrite s.disk [shardDir item.contentHash, entryFileName item.contentHash]
        ⟨some item, msize item⟩ := by
  unfold setWrite
  rw [memInsert_disk]

theorem diskLookup_diskWrite_self (d : List (List String × DiskFile))
    (p : List String) (f : DiskFile) : diskLookup (diskWrite d p f) p = some f := by
  simp [diskLookup, diskWrite, lookupA]

/-- Claim C4: code bug.  No code path ever adds a written entry's size to
`currentSize` (only `Clear` modifies the gauge, and only downward), so in any
state satisfying the constructor's configuration with a non-positive gauge —
an invariant along every real execution — the proactive capacity branch of
`Set` can never fire: `Set` never returns the capacity error, the gauge stays
non-positive, and every successful `Set` still adds its file to the
persistent tier, which therefore grows past any budget without a capacity
error ever being raised. -/
theorem set_capacity_check_never_fires (hash : String → String)
    (msize : CacheItemM → Nat) (now : Nat) (s : CacheState)
    (content result : String) (exp : Option Nat) (hg : goodState s) :
    (set hash msize now s content result exp).1 ≠ Except.error CacheErr.capacityFull ∧
    (set hash msize now s content result exp).2.currentSize ≤ 0 ∧
    ((set hash msize now s content result exp).1 = Except.ok () →
      diskLookup (set hash msize now s content result exp).2.disk
          [shardDir (hash content), entryFileName (hash content)] =
        some ⟨some (mkItem hash now content result exp),
              msize (mkItem hash now content result exp)⟩) := by
  obtain ⟨h1, h2, h3⟩ := hg
  by_cases hb : s.maxFileSize < content.utf8ByteSize
  · have hs : set hash msize now s content result exp =
        (Except.error CacheErr.sizeLimit, s) := by
      simp [set, hb]
    rw [hs]
    exact ⟨by simp, h3, by simp⟩
  · have hcap : ¬ ((s.maxCacheSize : Int) < s.currentSize + content.utf8ByteSize) := by
      rw [h2]
      have hle : (content.utf8ByteSize : Int) ≤ ((5 * 1024 * 1024 : Nat) : Int) := by
        exact_mod_cast (h1 ▸ Nat.not_lt.mp hb)
      omega
    rw [set_no_checks hash msize now s content result exp hb hcap]
    refine ⟨by simp [setWrite], ?_, fun _ => ?_⟩
    · rw [setWrite_currentSize]
      exact h3
    · rw [setWrite_disk]
      exact diskLookup_diskWrite_self _ _ _

theorem set_capacity_check_never_fires_witness :
    (set hashW msizeW 0 initState "a" "v" none).1 ≠ Except.error CacheErr.capacityFull ∧
    (set hashW msizeW 0 initState "a" "v" none).2.currentSize ≤ 0 ∧
    ((set hashW msizeW 0 initState "a" "v" none).1 = Except.ok () →
      diskLookup (set hashW msizeW 0 initState "a" "v" none).2.disk
          [shardDir (hashW "a"), entryFileName (hashW "a")] =
        some ⟨some (mkItem hashW 0 "a" "v" none),
              msizeW (mkItem hashW 0 "a" "v" none)⟩) :=
  set_capacity_check_never_fires hashW msizeW 0 initState "a" "v" none
    ⟨rfl, rfl, by decide⟩

/-! ### BatchGet returns exactly the hits -/

theorem find?_filter_ne {β : Type} (l : List (Nat × β)) (id j : Nat)
    (hne : j ≠ id) :
    (l.filter (fun e => !decide (e.1 = id))).find? (fun e => decide (e.1 = j)) =
      l.find? (fun e => decide (e.1 = j)) := by
  induction l with
  | nil => rfl
  | cons a t ih =>
    have hij : (decide (id = j)) = false := decide_eq_false (fun h => hne h.symm)
    by_cases ha : a.1 = id
    · have haj : ¬ (a.1 = j) := by
        rw [ha]
        exact fun h => hne h.symm
      simp [List.filter_cons, List.find?_cons, ha, haj, hij, ih]
    · by_cases haj : a.1 = j
      · simp [List.filter_cons, List.find?_cons, ha, haj, hne]
      · simp [List.filter_cons, List.find?_cons, ha, haj, ih]

theorem memLookup_moveToFront_isSome (s : CacheState) (h0 : String) (id : Nat)
    (it item : CacheItemM) (hm : memLookup s h0 = some (id, it)) (k : String) :
    (memLookup (moveToFront s id item) k).isSome = (memLookup s k).isSome := by
  have hf : s.lru.find? (fun e => decide (e.1 = id)) = some (id, it) := by
    unfold memLookup at hm
    cases hl : lookupA h0 s.memCache with
    | none => rw [hl] at hm; simp at hm
    | some id0 =>
      rw [hl] at hm
      simp only [Option.some_bind] at hm
      have hp := List.find?_some hm
      simp only [decide_eq_true_eq] at hp
      subst hp
      exact hm
  have hmc : (moveToFront s id item).memCache = s.memCache := rfl
  have hlru : (moveToFront s id item).lru =
      (id, item) :: s.lru.filter (fun e => !decide (e.1 = id)) := rfl
  unfold memLookup
  rw [hmc, hlru]
  cases hk : lookupA k s.memCache with
  | none => rfl
  | some j =>
    simp only [Option.some_bind]
    by_cases hj : j = id
    · subst hj
      have hcons : List.find? (fun e => decide (e.1 = j))
          ((j, item) :: s.lru.filter (fun e => !decide (e.1 = j))) = some (j, item) :=
        List.find?_cons_of_pos _ (by simp)
      rw [hcons, hf]
      rfl
    · have hne2 : ¬ ((decide (((id, item).1 : Nat) = j)) = true) := by
        simp only [decide_eq_true_eq]
        exact fun h => hj h.symm
      have hcons : List.find? (fun e => decide (e.1 = j))
          ((id, item) :: s.lru.filter (fun e => !decide (e.1 = id))) =
          List.find? (fun e => decide (e.1 = j))
            (s.lru.filter (fun e => !decide (e.1 = id))) :=
        List.find?_cons_of_neg _ hne2
      rw [hcons, find?_filter_ne _ _ _ hj]

theorem get_memHit_state (hash : String → String) (now : Nat) (s : CacheState)
    (c : String) (e : Nat × CacheItemM) (hm : memLookup s (hash c) = some e) :
    get hash now s c =
      (Except.ok (some { e.2 with lastAccessed := now }),
        moveToFront s e.1 { e.2 with lastAccessed := now }) := by
  simp [get, hm]

theorem get_memMiss_noRoot (hash : String → String) (now : Nat) (s : CacheState)
    (c : String) (hm : memLookup s (hash c) = none) (hd : disk2 s) :
    get hash now s c = (Except.ok none, s) := by
  have hroot := diskLookup_root_none hd (entryFileName (hash c))
  simp [get, hm, hroot]

theorem eraseA_of_not_mem_keys {α β : Type} [DecidableEq α] (k : α)
    (l : List (α × β)) (h : k ∉ l.map Prod.fst) : eraseA k l = l := by
  unfold eraseA
  rw [List.filter_eq_self]
  intro e he
  simp only [Bool.not_eq_eq_eq_not, Bool.not_true, decide_eq_false_iff_not]
  intro hk
  exact h (by rw [← hk]; exact List.mem_map_of_mem _ he)

/-- Claim C9: over any list of distinct contents, in any state whose disk
holds only sharded (two-component) paths — the invariant that every state
reachable through the cache's own operations satisfies — `BatchGet` returns
a mapping keyed by exactly the cached contents (the memory-tier hits, which
under the invariant are the only possible hits), in list order, with no
spurious or missing keys; the uncached contents are simply absent and no
error is produced for them. -/
theorem batchGet_returns_exact_hits (hash : String → String) (now : Nat)
    (s : CacheState) (contents : List String) (hd : disk2 s)
    (hnd : contents.Nodup) :
    (batchGet hash now s contents).1.map Prod.fst =
      contents.filter (memHit hash s) ∧
    (batchGet hash now s contents).1.length =
      (contents.filter (memHit hash s)).length := by
  have main : ∀ (cs : List String) (t : CacheState), disk2 t → cs.Nodup →
      (batchGet hash now t cs).1.map Prod.fst = cs.filter (memHit hash t) := by
    intro cs
    induction cs with
    | nil => intro t _ _; rfl
    | cons c rest ih =>
      intro t htd htnd
      obtain ⟨hc, hrest⟩ := List.nodup_cons.mp htnd
      cases hm : memLookup t (hash c) with
      | none =>
        have hg := get_memMiss_noRoot hash now t c hm htd
        have hhit : memHit hash t c = false := by
          simp [memHit, hm]
        simp only [batchGet, hg, List.filter_cons, hhit]
        exact ih t htd hrest
      | some e =>
        have hg := get_memHit_state hash now t c e hm
        have hhit : memHit hash t c = true := by
          simp [memHit, hm]
        set t' := moveToFront t e.1 { e.2 with lastAccessed := now } with ht'
        have htd' : disk2 t' := htd
        have hkeys : (batchGet hash now t' rest).1.map Prod.fst =
            rest.filter (memHit hash t') := ih t' htd' hrest
        have hfilt : rest.filter (memHit hash t') = rest.filter (memHit hash t) := by
          apply List.filter_congr
          intro x _
          simp only [memHit]
          exact memLookup_moveToFront_isSome t (hash c) e.1 e.2 _ hm (hash x)
        have hnotin : c ∉ (batchGet hash now t' rest).1.map Prod.fst := by
          rw [hkeys, hfilt]
          exact fun hmem => hc (List.mem_of_mem_filter hmem)
        have hfc : (c :: rest).filter (memHit hash t) = c :: rest.filter (memHit hash t) :=
          List.filter_cons_of_pos hhit
        simp only [batchGet, hg]
        rw [hfc]
        simp only [insertA]
        rw [eraseA_of_not_mem_keys _ _ hnotin]
        simp only [List.map_cons, hkeys, hfilt]
  have hfst := main contents s hd hnd
  refine ⟨hfst, ?_⟩
  calc (batchGet hash now s contents).1.length
      = ((batchGet hash now s contents).1.map Prod.fst).length := by
        rw [List.length_map]
    _ = (contents.filter (memHit hash s)).length := by rw [hfst]

theorem batchGet_returns_exact_hits_witness :
    (batchGet hashW 9 s1W ["a", "zz"]).1.map Prod.fst =
      ["a", "zz"].filter (memHit hashW s1W) ∧
    (batchGet hashW 9 s1W ["a", "zz"]).1.length =
      (["a", "zz"].filter (memHit hashW s1W)).length :=
  batchGet_returns_exact_hits hashW 9 s1W ["a", "zz"] (by decide) (by decide)

/-! ### LRU semantics of the memory tier -/

theorem removeOldest_lru (s : CacheState) : (removeOldest s).lru = s.lru.dropLast := by
  unfold removeOldest
  cases h : s.lru.getLast? with
  | none =>
    rw [List.getLast?_eq_none_iff] at h
    rw [h]
    rfl
  | some e => rfl

theorem removeOldest_nextId (s : CacheState) : (removeOldest s).nextId = s.nextId := by
  unfold removeOldest
  cases s.lru.getLast? <;> rfl

theorem capacity_check_false (s : CacheState) (n : Nat)
    (h1 : s.maxCacheSize = 100 * 1024 * 1024) (h2 : s.currentSize ≤ 0)
    (h3 : n ≤ 5 * 1024 * 1024) :
    ¬ ((s.maxCacheSize : Int) < s.currentSize + n) := by
  rw [h1]
  have hn : (n : Int) ≤ 5 * 1024 * 1024 := by exact_mod_cast h3
  push_cast
  omega

/-- Claim C8: the memory tier obeys LRU semantics.  A `Get` hit returns the
entry and moves it to the most-recently-used (front) position; an insert at
capacity first evicts the least-recently-used (back) entry; and concretely,
on a cache configured with memory capacity 2, inserting `A` then `B`,
accessing `A`, then inserting `C` leaves the memory tier holding exactly
`{A, C}` (as both the key map and the LRU list, in order `C`, `A`). -/
theorem lru_semantics_capacity_two (hash : String → String)
    (msize : CacheItemM → Nat) (a b c2 : String)
    (ha : a.utf8ByteSize ≤ 5 * 1024 * 1024)
    (hb : b.utf8ByteSize ≤ 5 * 1024 * 1024)
    (hc : c2.utf8ByteSize ≤ 5 * 1024 * 1024)
    (hab : hash a ≠ hash b) (hca : hash c2 ≠ hash a) (hcb : hash c2 ≠ hash b) :
    (∀ (s : CacheState) (c : String) (e : Nat × CacheItemM) (now : Nat),
      memLookup s (hash c) = some e →
      (get hash now s c).1 = Except.ok (some { e.2 with lastAccessed := now }) ∧
      (get hash now s c).2.lru.head? = some (e.1, { e.2 with lastAccessed := now })) ∧
    (∀ (s : CacheState) (item : CacheItemM), s.maxItems ≤ s.lru.length →
      (memInsert s item).lru = (s.nextId, item) :: s.lru.dropLast) ∧
    ((set hash msize 3
        (get hash 2
          ((set hash msize 1
            ((set hash msize 0 { initState with maxItems := 2 } a "va" none).2)
            b "vb" none).2)
          a).2
        c2 "vc" none).2.memCache.map Prod.fst = [hash c2, hash a] ∧
     (set hash msize 3
        (get hash 2
          ((set hash msize 1
            ((set hash msize 0 { initState with maxItems := 2 } a "va" none).2)
            b "vb" none).2)
          a).2
        c2 "vc" none).2.lru.map (fun e => e.2.contentHash) = [hash c2, hash a]) := by
  have hba : hash b ≠ hash a := fun h => hab h.symm
  have hac2 : hash a ≠ hash c2 := fun h => hca h.symm
  have hbc2 : hash b ≠ hash c2 := fun h => hcb h.symm
  refine ⟨?_, ?_, ?_⟩
  · intro s c e now hm
    constructor
    · simp [get, hm]
    · simp [get, hm, moveToFront]
  · intro s item h
    unfold memInsert
    rw [if_pos h]
    unfold pushFront
    simp [removeOldest_lru, removeOldest_nextId]
  · have e1 : set hash msize 0 ({ initState with maxItems := 2 }) a "va" none =
        setWrite msize ({ initState with maxItems := 2 })
          (mkItem hash 0 a "va" none) :=
      set_no_checks hash msize 0 _ a "va" none (Nat.not_lt.mpr ha)
        (capacity_check_false _ _ rfl le_rfl ha)
    rw [e1]
    have e2 : set hash msize 1
        (setWrite msize ({ initState with maxItems := 2 })
          (mkItem hash 0 a "va" none)).2 b "vb" none =
        setWrite msize
          (setWrite msize ({ initState with maxItems := 2 })
            (mkItem hash 0 a "va" none)).2
          (mkItem hash 1 b "vb" none) :=
      set_no_checks hash msize 1 _ b "vb" none (Nat.not_lt.mpr hb)
        (capacity_check_false _ _ rfl le_rfl hb)
    rw [e2]
    have hm : memLookup
        (setWrite msize
          (setWrite msize ({ initState with maxItems := 2 })
            (mkItem hash 0 a "va" none)).2
          (mkItem hash 1 b "vb" none)).2 (hash a) =
        some (0, mkItem hash 0 a "va" none) := by
      simp [memLookup, lookupA, setWrite, memInsert, pushFront, insertA, eraseA,
            removeOldest, mkItem, initState, newReviewCache, hab, hba]
    have e3 := get_memHit_state hash 2 _ a _ hm
    rw [e3]
    have e4 : set hash msize 3
        (moveToFront
          (setWrite msize
            (setWrite msize ({ initState with maxItems := 2 })
              (mkItem hash 0 a "va" none)).2
            (mkItem hash 1 b "vb" none)).2
          0 { mkItem hash 0 a "va" none with lastAccessed := 2 })
        c2 "vc" none =
        setWrite msize
          (moveToFront
            (setWrite msize
              (setWrite msize ({ initState with maxItems := 2 })
                (mkItem hash 0 a "va" none)).2
              (mkItem hash 1 b "vb" none)).2
            0 { mkItem hash 0 a "va" none with lastAccessed := 2 })
          (mkItem hash 3 c2 "vc" none) :=
      set_no_checks hash msize 3 _ c2 "vc" none (Nat.not_lt.mpr hc)
        (capacity_check_false _ _ rfl le_rfl hc)
    rw [e4]
    constructor
    · simp [setWrite, memInsert, pushFront, removeOldest, moveToFront, insertA,
            eraseA, lookupA, mkItem, initState, newReviewCache,
            hab, hba, hca, hac2, hcb, hbc2]
    · simp [setWrite, memInsert, pushFront, removeOldest, moveToFront, insertA,
            eraseA, lookupA, mkItem, initState, newReviewCache,
            hab, hba, hca, hac2, hcb, hbc2]

theorem lru_semantics_capacity_two_witness :
    (∀ (s : CacheState) (c : String) (e : Nat × CacheItemM) (now : Nat),
      memLookup s (hashW c) = some e →
      (get hashW now s c).1 = Except.ok (some { e.2 with lastAccessed := now }) ∧
      (get hashW now s c).2.lru.head? = some (e.1, { e.2 with lastAccessed := now })) ∧
    (∀ (s : CacheState) (item : CacheItemM), s.maxItems ≤ s.lru.length →
      (memInsert s item).lru = (s.nextId, item) :: s.lru.dropLast) ∧
    ((set hashW msizeW 3
        (get hashW 2
          ((set hashW msizeW 1
            ((set hashW msizeW 0 { initState with maxItems := 2 } "a" "va" none).2)
            "b" "vb" none).2)
          "a").2
        "c" "vc" none).2.memCache.map Prod.fst = [hashW "c", hashW "a"] ∧
     (set hashW msizeW 3
        (get hashW 2
          ((set hashW msizeW 1
            ((set hashW msizeW 0 { initState with maxItems := 2 } "a" "va" none).2)
            "b" "vb" none).2)
          "a").2
        "c" "vc" none).2.lru.map (fun e => e.2.contentHash) = [hashW "c", hashW "a"]) :=
  lru_semantics_capacity_two hashW msizeW "a" "b" "c" (by decide) (by decide)
    (by decide) (by decide) (by decide) (by decide)

end ReviewCache
